import Mathlib

set_option maxRecDepth 10000

/-!
Shallow embedding of the rolling-window feature extractor (`extract_features_df`)
and the day analyzer (`analyze_day`) from `src/code/analysis_functions.py`.

Conventions of the embedding:
* A series is a `List ℚ` of values (the code casts to `float`; residual series
  carry no missing values).  A raw table column may have missing cells and is a
  `List (Option ℚ)` aligned with a timestamp index `List ℤ` (hours).
* A missing (NaN) cell of a derived column is `Option.none`; columns that can
  also take IEEE infinities are valued in `PF`, which distinguishes NaN from
  `+inf`/`-inf` from finite values, mirroring numpy float arithmetic.
* Rolling computations use pandas defaults: an integer window `w` has
  `min_periods = w`, so a value is produced only when the trailing window holds
  `w` non-missing observations.
* Square roots (sample standard deviations) are `Real.sqrt` of an exact
  rational variance; tests the code performs on a standard deviation
  (`std == 0`, `std > 0`) are embedded as the equivalent tests on the rational
  variance, since `Real.sqrt v = 0 ↔ v = 0` and `0 < Real.sqrt v ↔ 0 < v`
  for `v ≥ 0`.
-/

/-- IEEE-style extended value: NaN, the two infinities, or a finite value. -/
inductive PF (α : Type) where
  | nan : PF α
  | pinf : PF α
  | minf : PF α
  | fin : α → PF α
  deriving DecidableEq

/-- `abs` on extended floats: NaN stays NaN, both infinities map to `+inf`. -/
def PF.pfAbs {α : Type} [Lattice α] [AddGroup α] : PF α → PF α
  | .nan => .nan
  | .pinf => .pinf
  | .minf => .pinf
  | .fin x => .fin |x|

/-- NaN test on extended floats. -/
def PF.isNan {α : Type} : PF α → Bool
  | .nan => true
  | _ => false

/-- Float division of exact rationals: division by zero follows IEEE
(`0/0 = NaN`, `a/0 = sign(a)·inf`, the zero here being `+0`). -/
def pfDivQ (a b : ℚ) : PF ℚ :=
  if b = 0 then (if a = 0 then .nan else if 0 < a then .pinf else .minf)
  else .fin (a / b)

/-- Mean of a list of rationals (callers guard non-emptiness as pandas does). -/
def listMean (l : List ℚ) : ℚ := l.sum / l.length

/-- Sample variance with the `N-1` denominator (pandas default `ddof=1`).
Callers guard `2 ≤ l.length`; shorter lists are never consulted. -/
def sampleVar (l : List ℚ) : ℚ :=
  (l.map (fun x => (x - listMean l) ^ 2)).sum / ((l.length : ℚ) - 1)

/-- Sample covariance of two aligned lists (the `N-1` convention). -/
def sampleCov (a b : List ℚ) : ℚ :=
  ((a.zip b).map (fun p => (p.1 - listMean a) * (p.2 - listMean b))).sum /
    ((a.length : ℚ) - 1)

/-- Ascending sort, the order `np.median` / quantiles operate on. -/
def sortAsc (l : List ℚ) : List ℚ := l.insertionSort (· ≤ ·)

/-- `np.median`: average of the two middle order statistics (they coincide for
odd length). -/
def npMedian (l : List ℚ) : ℚ :=
  let s := sortAsc l
  (s.getD ((l.length - 1) / 2) 0 + s.getD (l.length / 2) 0) / 2

/-- `np.median(np.abs(x - np.median(x)))` — the unscaled MAD of lines 50–53. -/
def madList (l : List ℚ) : ℚ := npMedian (l.map (fun x => |x - npMedian l|))

/-- Quantile with linear interpolation between order statistics (numpy/pandas
default), assuming `q ∈ [0,1]` and a non-empty list. -/
def pquantileVal (q : ℚ) (l : List ℚ) : ℚ :=
  let s := sortAsc l
  let h := q * ((l.length : ℚ) - 1)
  let i := (Int.floor h).toNat
  let g := h - (Int.floor h : ℚ)
  s.getD i 0 + g * (s.getD (i + 1) (s.getD i 0) - s.getD i 0)

/-- pandas `Series.quantile`: values of `q` outside `[0,1]` raise a
`ValueError`; this is the only validation the code ever performs on the
configured quantiles, and it happens at the point of use. -/
def pquantileE (q : ℚ) (l : List ℚ) : Except String ℚ :=
  if q < 0 ∨ 1 < q then .error "percentiles should all be in the interval [0, 1]"
  else .ok (pquantileVal q l)

/-- The trailing window of (at most) `w` observations ending at index `i`. -/
def win (w : ℕ) (s : List ℚ) (i : ℕ) : List ℚ := (s.take (i + 1)).drop (i + 1 - w)

/-- pandas `rolling(w)` produces a value at row `i` exactly when the trailing
window is full: `w ≥ 1`, at least `w` observations so far, and `i` in range. -/
def isFull (w : ℕ) (s : List ℚ) (i : ℕ) : Bool :=
  decide (1 ≤ w) && decide (w ≤ i + 1) && decide (i < s.length)

/-- The indices `i+1-w, …, i` of the trailing window ending at `i`. -/
def winIdx (w i : ℕ) : List ℕ := (List.range w).map (fun d => i + 1 - w + d)

/-- Line 46: `f["mean"] = roll.mean()`. -/
def f_mean (w : ℕ) (s : List ℚ) (i : ℕ) : Option ℚ :=
  if isFull w s i = true then some (listMean (win w s i)) else none

/-- Definedness of the rolling sample std (`roll.std()`): a full window of at
least two observations (`ddof = 1` makes the std of one point NaN). -/
def stdDefined (w : ℕ) (s : List ℚ) (i : ℕ) : Bool :=
  decide (2 ≤ w) && isFull w s i

/-- Line 47: `f["std"] = roll.std()` (sample std, `N-1` denominator). -/
noncomputable def f_std (w : ℕ) (s : List ℚ) (i : ℕ) : Option ℝ :=
  if stdDefined w s i = true then some (Real.sqrt (sampleVar (win w s i))) else none

/-- Lines 50–53: rolling MAD. -/
def f_mad (w : ℕ) (s : List ℚ) (i : ℕ) : Option ℚ :=
  if isFull w s i = true then some (madList (win w s i)) else none

/-- Line 58: `f["q25"] = roll.quantile(0.25)`. -/
def f_q25 (w : ℕ) (s : List ℚ) (i : ℕ) : Option ℚ :=
  if isFull w s i = true then some (pquantileVal (1/4) (win w s i)) else none

/-- Line 59: `f["q75"] = roll.quantile(0.75)`. -/
def f_q75 (w : ℕ) (s : List ℚ) (i : ℕ) : Option ℚ :=
  if isFull w s i = true then some (pquantileVal (3/4) (win w s i)) else none

/-- Line 60: `f["iqr"] = f["q75"] - f["q25"]` (NaN propagates). -/
def f_iqr (w : ℕ) (s : List ℚ) (i : ℕ) : Option ℚ :=
  match f_q75 w s i, f_q25 w s i with
  | some a, some b => some (a - b)
  | _, _ => none

/-- Line 65: `z = (s - f["mean"]) / f["std"]` as float arithmetic.  When the
std is defined its value is `Real.sqrt` of the window variance, which is zero
exactly when the variance is zero; division by that zero follows IEEE. -/
noncomputable def zVal (w : ℕ) (s : List ℚ) (i : ℕ) : PF ℝ :=
  if stdDefined w s i = true then
    (if sampleVar (win w s i) = 0 then
      (if s.getD i 0 - listMean (win w s i) = 0 then .nan
       else if 0 < s.getD i 0 - listMean (win w s i) then .pinf else .minf)
     else .fin (((s.getD i 0 - listMean (win w s i) : ℚ) : ℝ) /
        Real.sqrt (sampleVar (win w s i))))
  else .nan

/-- Line 66: `f["z_abs"] = z.abs()`. -/
noncomputable def zAbs (w : ℕ) (s : List ℚ) (i : ℕ) : PF ℝ := (zVal w s i).pfAbs

/-- Whether the cell of `z_abs` at `i` is NaN (decidable form; payloads of
finite values are irrelevant).  Missing window or one-point window ⇒ NaN;
zero variance with a value equal to the window mean ⇒ `0.0/0.0` ⇒ NaN. -/
def zIsNanB (w : ℕ) (s : List ℚ) (i : ℕ) : Bool :=
  !(stdDefined w s i) ||
    (decide (sampleVar (win w s i) = 0) &&
      decide (s.getD i 0 - listMean (win w s i) = 0))

/-- The strict-threshold indicator `x > z_thr` used on line 71, on extended
floats (`NaN > thr` and `-inf > thr` are false, `+inf > thr` is true). -/
noncomputable def PF.indGT (thr : ℝ) : PF ℝ → ℝ
  | .nan => 0
  | .pinf => 1
  | .minf => 0
  | .fin x => if thr < x then 1 else 0

/-- Definedness of `anomaly_rate` at `i`: the second `rolling(w)` (again with
`min_periods = w`) needs a full window of `w` non-NaN `z_abs` cells. -/
def anomalyDefined (w : ℕ) (s : List ℚ) (i : ℕ) : Bool :=
  isFull w s i && (winIdx w i).all (fun j => !zIsNanB w s j)

/-- Lines 68–72: `z.abs().rolling(w).apply(lambda x: (x > z_thr).mean())`. -/
noncomputable def anomalyRate (w : ℕ) (thr : ℝ) (s : List ℚ) (i : ℕ) : Option ℝ :=
  let zs := (winIdx w i).map (fun j => zAbs w s j)
  if isFull w s i && zs.all (fun v => !v.isNan) then
    some ((zs.map (fun v => v.indGT thr)).sum / w)
  else none

/-- Line 75: `rz = (s - roll.median()) / (1.4826 * f["mad"])`, float semantics:
a NaN median/MAD (window not full) makes the cell NaN; a zero denominator
follows IEEE division. -/
def rzVal (w : ℕ) (s : List ℚ) (i : ℕ) : PF ℚ :=
  if isFull w s i = true then
    pfDivQ (s.getD i 0 - npMedian (win w s i)) ((14826/10000) * madList (win w s i))
  else .nan

/-- Line 76: `f["rz_abs"] = rz.abs()`. -/
def rzAbs (w : ℕ) (s : List ℚ) (i : ℕ) : PF ℚ := (rzVal w s i).pfAbs

/-- Line 81: `f["vol_rolling"] = f["std"]` (an alias of the rolling std). -/
noncomputable def f_vol_rolling (w : ℕ) (s : List ℚ) (i : ℕ) : Option ℝ := f_std w s i

/-- One step of pandas `ewm(alpha=α, adjust=True).mean()`: running weighted
numerator and weight sum. -/
def ewmStep (α : ℚ) : ℚ × ℚ → ℚ → ℚ × ℚ :=
  fun nd x => ((1 - α) * nd.1 + x, (1 - α) * nd.2 + 1)

/-- pandas `ewm(alpha=α).mean()` at position `i` (the default `adjust=True`:
weights `(1-α)^(i-j)` normalized by their running sum). -/
def ewmAdjAt (α : ℚ) (xs : List ℚ) (i : ℕ) : ℚ :=
  let nd := (xs.take (i + 1)).foldl (ewmStep α) (0, 0)
  nd.1 / nd.2

/-- Lines 83–88: `s.sub(s.mean()).abs().ewm(alpha=ewma_alpha).mean()` — the
EWMA of absolute deviations from the one global mean of the whole series. -/
def volEwma (α : ℚ) (s : List ℚ) (i : ℕ) : ℚ :=
  ewmAdjAt α (s.map (fun x => |x - listMean s|)) i

/-- The EWMA the spec's words describe: smoothing factor `α` and *no*
adjustment, i.e. the plain recursion `y₀ = x₀`, `yₜ = (1-α)·yₜ₋₁ + α·xₜ`,
applied to `|s - mean(s)|`.  Stated only to compare against `volEwma`. -/
def specVolEwmaNoAdjust (α : ℚ) (s : List ℚ) : ℕ → ℚ
  | 0 => (s.map (fun x => |x - listMean s|)).getD 0 0
  | i + 1 => (1 - α) * specVolEwmaNoAdjust α s i +
      α * (s.map (fun x => |x - listMean s|)).getD (i + 1) 0

/-- The two aligned lists `Series.autocorr(lag=k)` correlates inside a window
`x`: current values `x[k:]` against lagged values `x[:-k]`. -/
def acfPair (k : ℕ) (x : List ℚ) : List ℚ × List ℚ := (x.drop k, x.take (x.length - k))

/-- Definedness of `roll.apply(lambda x: pd.Series(x).autocorr(lag=k))` at `i`:
a full window, at least two overlapping pairs, and non-degenerate variance on
both sides (Pearson r is NaN otherwise). -/
def acfDefined (k w : ℕ) (s : List ℚ) (i : ℕ) : Bool :=
  isFull w s i && decide (k + 2 ≤ w) &&
    decide (sampleVar (acfPair k (win w s i)).1 ≠ 0) &&
    decide (sampleVar (acfPair k (win w s i)).2 ≠ 0)

/-- Lines 93–99: within-window autocorrelation at lag `k` (Pearson correlation
of the window against its own lag). -/
noncomputable def acfF (k w : ℕ) (s : List ℚ) (i : ℕ) : Option ℝ :=
  if acfDefined k w s i = true then
    some ((sampleCov (acfPair k (win w s i)).1 (acfPair k (win w s i)).2 : ℝ) /
      (Real.sqrt (sampleVar (acfPair k (win w s i)).1) *
        Real.sqrt (sampleVar (acfPair k (win w s i)).2)))
  else none

/-- Lines 102–103: `s.shift(k)` — the value exactly `k` steps earlier. -/
def f_lag (k : ℕ) (s : List ℚ) (i : ℕ) : Option ℚ :=
  if k ≤ i ∧ i < s.length then some (s.getD (i - k) 0) else none

/-- Lines 104–105: `s.diff(k)` — current value minus the `k`-lagged value. -/
def f_lagDelta (k : ℕ) (s : List ℚ) (i : ℕ) : Option ℚ :=
  if k ≤ i ∧ i < s.length then some (s.getD i 0 - s.getD (i - k) 0) else none

/-- Line 129: `f["mean_shift"] = f["mean"].diff().abs()` — NaN at row 0 and
wherever either neighbouring rolling mean is NaN. -/
def f_mean_shift (w : ℕ) (s : List ℚ) (i : ℕ) : Option ℚ :=
  if i = 0 then none
  else
    match f_mean w s (i - 1), f_mean w s i with
    | some a, some b => some |b - a|
    | _, _ => none

/-- Lines 111–113: the calendar bucket `(weekday, hour-of-day)` of a timestamp
counted in hours from a Monday-midnight epoch. -/
def dhKey (t : ℤ) : ℤ × ℤ := ((t.ediv 24).emod 7, t.emod 24)

/-- The positions of the series falling in calendar bucket `k`. -/
def groupPositions (ts : List ℤ) (k : ℤ × ℤ) : List ℕ :=
  (List.range ts.length).filter (fun p => decide (dhKey (ts.getD p 0) = k))

/-- The values of the series falling in calendar bucket `k` (the whole
provided series, not a window). -/
def groupVals (ts : List ℤ) (s : List ℚ) (k : ℤ × ℤ) : List ℚ :=
  (groupPositions ts k).map (fun p => s.getD p 0)

/-- One iteration of the loop on lines 116–124: for bucket `k` with more than
one member and positive std (equivalently, positive sample variance), assign
the normalized value at every member position; otherwise leave the column. -/
noncomputable def dhzUpd (ts : List ℤ) (s : List ℚ) (col : ℕ → ℝ) (k : ℤ × ℤ) : ℕ → ℝ :=
  if 1 < (groupVals ts s k).length ∧ 0 < sampleVar (groupVals ts s k) then
    fun p =>
      if dhKey (ts.getD p 0) = k then
        ((s.getD p 0 : ℝ) - (listMean (groupVals ts s k) : ℝ)) /
          Real.sqrt (sampleVar (groupVals ts s k))
      else col p
  else col

/-- Folding the group loop over a list of bucket keys, starting from the
`0.0` placeholder column of line 114. -/
noncomputable def dhzFold (ts : List ℤ) (s : List ℚ) (ks : List (ℤ × ℤ)) (col : ℕ → ℝ) : ℕ → ℝ :=
  ks.foldl (dhzUpd ts s) col

/-- Lines 111–124: the `dow_hour_z` column, total over positions (no cell is
ever missing). -/
noncomputable def dhzCol (ts : List ℤ) (s : List ℚ) : ℕ → ℝ :=
  dhzFold ts s (ts.map dhKey).dedup (fun _ => 0)

/-- Whether row `j` of one series' feature block has no missing cell, i.e.
survives the `dropna()` of line 206.  `vol_ewma` and `dow_hour_z` are total on
NaN-free residual input and impose no constraint; `anomaly_rate` definedness
does not depend on the threshold. -/
def rowComplete (w : ℕ) (r : List ℚ) (j : ℕ) : Bool :=
  (f_mean w r j).isSome && stdDefined w r j && (f_mad w r j).isSome &&
  (f_q25 w r j).isSome && (f_q75 w r j).isSome && (f_iqr w r j).isSome &&
  !zIsNanB w r j && anomalyDefined w r j && !(rzAbs w r j).isNan &&
  stdDefined w r j &&
  acfDefined 1 w r j && acfDefined 2 w r j &&
  (f_lag 24 r j).isSome && (f_lag 168 r j).isSome &&
  (f_lagDelta 24 r j).isSome && (f_lagDelta 168 r j).isSome &&
  (f_mean_shift w r j).isSome

/-!  The day analyzer (`analyze_day`, lines 140–317).

Timestamps are hours (`ℤ`) in the target timezone: the localization step of
lines 179–185 is a bijective relabelling of the index and is absorbed into the
choice of unit.  The target day is given as a day number, so
`day_start = 24·day` (midnight) and `day_end = day_start + 24` (midnight of the
next day), as lines 187–189 compute.  Seasonal-trend decomposition is the
external collaborator of the spec: it is a parameter mapping the sliced
`(timestamp, value)` history of one column to its residual series, raising
(`Except.error`) like `STL` does.  -/

/-- pandas `.loc[a:b]` label selection on a time index: inclusive of *both*
endpoints (used at lines 193, 206, 213). -/
def locIncl (a b t : ℤ) : Bool := decide (a ≤ t) && decide (t ≤ b)

/-- Line 188: `day_start = day_ts.normalize()` — midnight of the target day,
in hours from the epoch. -/
def dayStartOf (day : ℤ) : ℤ := 24 * day

/-- Line 189: `day_end = day_start + pd.Timedelta(days=1)` — midnight of the
next day. -/
def dayEndOf (day : ℤ) : ℤ := dayStartOf day + 24

/-- Line 206 before the drop: the feature rows selected for the target day are
the history rows with label in `[day_start, day_end]` — `.loc` slicing, hence
inclusive of `day_end`. -/
def dayCandJs (histTimes : List ℤ) (day : ℤ) : List ℕ :=
  (List.range histTimes.length).filter
    (fun j => locIncl (dayStartOf day) (dayEndOf day) (histTimes.getD j 0))

/-- Positions of the index rows selected by `.loc[a:b]` (inclusive). -/
def selIncl (idx : List ℤ) (a b : ℤ) : List ℕ :=
  (List.range idx.length).filter (fun p => locIncl a b (idx.getD p 0))

/-- A column's values over `.loc[a:b]` after `.dropna()` (lines 217–218). -/
def sliceVals (idx : List ℤ) (vals : List (Option ℚ)) (a b : ℤ) : List ℚ :=
  (selIncl idx a b).filterMap (fun p => vals.getD p none)

/-- A column's values over the *half-open* boolean-mask selection
`(index >= a) & (index < b)` of lines 232–235, after `.dropna()`. -/
def sliceValsHO (idx : List ℤ) (vals : List (Option ℚ)) (a b : ℤ) : List ℚ :=
  ((List.range idx.length).filter
      (fun p => decide (a ≤ idx.getD p 0) && decide (idx.getD p 0 < b))).filterMap
    (fun p => vals.getD p none)

/-- Line 221: `(s_day < 0).mean() if len(s_day) else np.nan`. -/
def negShareF (sday : List ℚ) : Option ℚ :=
  if sday.length ≠ 0 then
    some (listMean (sday.map (fun x => if x < 0 then (1 : ℚ) else 0)))
  else none

/-- Line 224: `(s_day > spike_thr).mean() if spike_thr == spike_thr else nan`;
the mean of an empty comparison is itself NaN. -/
def spikeShareF (sday : List ℚ) (thr? : Option ℚ) : Option ℚ :=
  match thr? with
  | none => none
  | some thr =>
    if sday.length ≠ 0 then
      some (listMean (sday.map (fun x => if thr < x then (1 : ℚ) else 0)))
    else none

/-- The day-level summary columns broadcast onto each hourly row for one
series (lines 243–257); a `none` field is a NaN cell. -/
structure ColStats where
  day_mean : Option ℚ
  day_min : Option ℚ
  day_max : Option ℚ
  day_qa : Option ℚ
  day_qb : Option ℚ
  day_qc : Option ℚ
  neg_share : Option ℚ
  spike_share : Option ℚ
  ramp_mean : Option ℚ
  ramp_std : Option ℝ
  ramp_max_abs : Option ℚ
  lag24_mean : Option ℚ
  lag168_mean : Option ℚ
  day_vs_lag24 : Option ℚ
  day_vs_lag168 : Option ℚ

/-- The pure assembly of one series' day-level statistics from its day slice,
history slice, precomputed quantiles and spike threshold (lines 226–257).
`ramp` is `s_day.diff()`: its first entry is NaN, so its skip-NaN mean needs
two day values, its sample std three. -/
noncomputable def buildStats (idx : List ℤ) (vals : List (Option ℚ)) (dayStart dayEnd : ℤ)
    (sday : List ℚ) (qs : Option ℚ × Option ℚ × Option ℚ) (spikeThr : Option ℚ) :
    ColStats :=
  let diffs := (sday.zip sday.tail).map (fun p => p.2 - p.1)
  let lag24v := sliceValsHO idx vals (dayStart - 24) (dayEnd - 24)
  let lag168v := sliceValsHO idx vals (dayStart - 168) (dayEnd - 168)
  let l24 := if lag24v.length ≠ 0 then some (listMean lag24v) else none
  let l168 := if lag168v.length ≠ 0 then some (listMean lag168v) else none
  { day_mean := if sday.length ≠ 0 then some (listMean sday) else none
    day_min := match sday with | [] => none | x :: xs => some (xs.foldl min x)
    day_max := match sday with | [] => none | x :: xs => some (xs.foldl max x)
    day_qa := qs.1
    day_qb := qs.2.1
    day_qc := qs.2.2
    neg_share := negShareF sday
    spike_share := spikeShareF sday spikeThr
    ramp_mean := if 2 ≤ sday.length then some (listMean diffs) else none
    ramp_std := if 3 ≤ sday.length then some (Real.sqrt (sampleVar diffs)) else none
    ramp_max_abs :=
      if 2 ≤ sday.length then some ((diffs.map (fun d => |d|)).foldl max 0) else none
    lag24_mean := l24
    lag168_mean := l168
    day_vs_lag24 :=
      match l24 with
      | some m => if sday.length ≠ 0 then some (listMean sday - m) else none
      | none => none
    day_vs_lag168 :=
      match l168 with
      | some m => if sday.length ≠ 0 then some (listMean sday - m) else none
      | none => none }

/-- Line 220: `s_day.quantile(quantiles) if len(s_day) else [nan]*3` — pandas
validates the three configured quantiles here, and only when the day slice is
non-empty. -/
def dayQuantilesE (sday : List ℚ) (q1 q2 q3 : ℚ) :
    Except String (Option ℚ × Option ℚ × Option ℚ) :=
  if sday.length ≠ 0 then
    match pquantileE q1 sday, pquantileE q2 sday, pquantileE q3 sday with
    | .ok a, .ok b, .ok c => .ok (some a, some b, some c)
    | .error e, _, _ => .error e
    | _, .error e, _ => .error e
    | _, _, .error e => .error e
  else .ok (none, none, none)

/-- Line 223: `s_hist.quantile(spike_pctl) if len(s_hist) else nan` — the
spike percentile is validated only when the history slice is non-empty. -/
def spikeThrE (shist : List ℚ) (sp : ℚ) : Except String (Option ℚ) :=
  if shist.length ≠ 0 then
    match pquantileE sp shist with
    | .ok t => .ok (some t)
    | .error e => .error e
  else .ok none

/-- Lines 216–257 for one series: slice the day and the history, compute the
configured day quantiles and the history spike threshold (each raising only at
its point of use), then assemble the statistics. -/
noncomputable def colStatsE (idx : List ℤ) (vals : List (Option ℚ)) (dayStart dayEnd histStart : ℤ)
    (q1 q2 q3 spikePctl : ℚ) : Except String ColStats :=
  match dayQuantilesE (sliceVals idx vals dayStart dayEnd) q1 q2 q3,
      spikeThrE (sliceVals idx vals histStart dayEnd) spikePctl with
  | .ok qs, .ok thr =>
    .ok (buildStats idx vals dayStart dayEnd (sliceVals idx vals dayStart dayEnd) qs thr)
  | .error e, _ => .error e
  | _, .error e => .error e

/-- The returned per-day table: surviving hourly rows with their calendar
columns, and — only when rows survived — the broadcast day-level statistics of
every input series.  `dayStats = none` models the absence of the day-level
columns from the empty table (line 215's skipped branch). -/
structure DayTable where
  times : List ℤ
  weekday : List ℤ
  hour : List ℤ
  dayStats : Option (List (String × ColStats))

/-- Lines 196–200: per-column seasonal-trend decomposition of the history
slice; a decomposition failure for any column aborts the whole call (the
`STL(...).fit()` exception propagates). -/
def residualsE (decompose : List (ℤ × Option ℚ) → Except String (List ℚ))
    (idx : List ℤ) (histPos : List ℕ) (cols : List (String × List (Option ℚ))) :
    Except String (List (String × List ℚ)) :=
  cols.mapM (fun cv =>
    match decompose (histPos.map (fun p => (idx.getD p 0, cv.2.getD p none))) with
    | .ok r => .ok (cv.1, r)
    | .error e => .error e)

/-- Lines 216–257: the day-level statistics of every column (computed only
when hourly rows survived). -/
noncomputable def dayStatsE (idx : List ℤ) (cols : List (String × List (Option ℚ)))
    (dayStart dayEnd histStart : ℤ) (q1 q2 q3 spikePctl : ℚ) :
    Except String (List (String × ColStats)) :=
  cols.mapM (fun cv =>
    match colStatsE idx cv.2 dayStart dayEnd histStart q1 q2 q3 spikePctl with
    | .ok st => .ok (cv.1, st)
    | .error e => .error e)

/-- `analyze_day` (lines 140–317).  `decompose` is the external seasonal-trend
decomposition (line 199, consumed as a black box returning residuals aligned
on the history slice); `day` is the target day number; the feature extraction
of line 203 runs with window `w` (its `z_thr`/`ewma_alpha` defaults do not
affect which cells are missing). -/
noncomputable def analyzeDay (decompose : List (ℤ × Option ℚ) → Except String (List ℚ))
    (idx : List ℤ) (cols : List (String × List (Option ℚ))) (day : ℤ) (w : ℕ)
    (historyHours : ℤ) (q1 q2 q3 spikePctl : ℚ) : Except String DayTable :=
  let dayStart := dayStartOf day
  let dayEnd := dayEndOf day
  let histStart := dayEnd - historyHours
  let histPos := selIncl idx histStart dayEnd
  let histTimes := histPos.map (fun p => idx.getD p 0)
  match residualsE decompose idx histPos cols with
  | .error e => .error e
  | .ok resid =>
    let dayJs := (dayCandJs histTimes day).filter
      (fun j => resid.all (fun cr => rowComplete w cr.2 j))
    let times := dayJs.map (fun j => histTimes.getD j 0)
    if times.isEmpty then
      .ok { times := times
            weekday := times.map (fun t => (t.ediv 24).emod 7)
            hour := times.map (fun t => t.emod 24)
            dayStats := none }
    else
      match dayStatsE idx cols dayStart dayEnd histStart q1 q2 q3 spikePctl with
      | .error e => .error e
      | .ok l =>
        .ok { times := times
              weekday := times.map (fun t => (t.ediv 24).emod 7)
              hour := times.map (fun t => t.emod 24)
              dayStats := some l }

/-- The surviving row timestamps of a day-analysis result. -/
def resTimes : Except String DayTable → Option (List ℤ)
  | .ok T => some T.times
  | .error _ => none

/-- Whether the day-level columns are present in a day-analysis result. -/
def resStatsPresent : Except String DayTable → Option Bool
  | .ok T => some T.dayStats.isSome
  | .error _ => none

/-- The day-level statistics of column `c` in a day-analysis result. -/
def statOf (r : Except String DayTable) (c : String) : Option ColStats :=
  match r with
  | .ok T => (T.dayStats.getD []).lookup c
  | .error _ => none

/-- A decomposition collaborator that returns the raw values themselves as
residuals (missing raw cells become `0`); used to exercise the analyzer on
concrete inputs. -/
def idResid : List (ℤ × Option ℚ) → Except String (List ℚ) :=
  fun rows => .ok (rows.map (fun r => r.2.getD 0))

/-- A decomposition collaborator returning the ramp `0, 1, 2, …` as residuals,
regardless of the input values; used to exercise the analyzer on concrete
inputs where every feature cell of the day rows is defined. -/
def rampDecomp : List (ℤ × Option ℚ) → Except String (List ℚ) :=
  fun rows => .ok ((List.range rows.length).map (fun n => (n : ℚ)))

/-- A concrete 193-hour index (hours `0 … 192`, days 0–8) used to exercise the
analyzer. -/
def cexIdx : List ℤ := (List.range 193).map (fun n => (n : ℤ))

/-- Concrete raw values on `cexIdx`: present (`0`) before hour 168, missing
from hour 168 on — so the raw slice of day 7 is empty after the missing-value
drop, while the 24 hours preceding day 7 all carry values. -/
def cexVals : List (Option ℚ) :=
  (List.range 193).map (fun p => if p < 168 then some 0 else none)

/-- The analyzer run on that input with the ramp decomposition: every feature
cell of the day-7 rows is defined, so 25 hourly rows survive while the raw
day slice is empty. -/
noncomputable def cexRes : Except String DayTable :=
  analyzeDay rampDecomp cexIdx [("a", cexVals)] 7 4 1000 (1/10) (1/2) (9/10) (19/20)

/-! ## Helper lemmas -/

theorem getD_map_lt {α β : Type} (f : α → β) (l : List α) (j : ℕ) (d : β) (e : α)
    (h : j < l.length) : (l.map f).getD j d = f (l.getD j e) := by
  rw [List.getD_eq_getElem?_getD, List.getD_eq_getElem?_getD, List.getElem?_map,
    List.getElem?_eq_getElem h]
  simp

theorem ewm_foldl_closed (α : ℚ) (xs : List ℚ) :
    ∀ i : ℕ, i < xs.length →
      (xs.take (i + 1)).foldl (ewmStep α) (0, 0) =
        (((List.range (i + 1)).map (fun j => (1 - α) ^ (i - j) * xs.getD j 0)).sum,
         ((List.range (i + 1)).map (fun j => (1 - α) ^ (i - j))).sum) := by
  intro i
  induction i with
  | zero =>
    intro h
    match xs, h with
    | x :: t, _ => simp [ewmStep, List.range_succ]
  | succ n ih =>
    intro h
    have hn : n < xs.length := Nat.lt_of_succ_lt h
    have htake : xs.take (n + 1 + 1) = xs.take (n + 1) ++ [xs.getD (n + 1) 0] := by
      rw [List.take_succ, List.getElem?_eq_getElem h]
      simp [List.getD_eq_getElem?_getD, List.getElem?_eq_getElem h]
    rw [htake, List.foldl_append, ih hn]
    have hnum : ((List.range (n + 1 + 1)).map
        (fun j => (1 - α) ^ (n + 1 - j) * xs.getD j 0)).sum =
        (1 - α) * ((List.range (n + 1)).map
          (fun j => (1 - α) ^ (n - j) * xs.getD j 0)).sum + xs.getD (n + 1) 0 := by
      rw [List.range_succ, List.map_append, List.sum_append]
      have hcg : (List.range (n + 1)).map (fun j => (1 - α) ^ (n + 1 - j) * xs.getD j 0) =
          (List.range (n + 1)).map (fun j => (1 - α) * ((1 - α) ^ (n - j) * xs.getD j 0)) := by
        apply List.map_congr_left
        intro j hj
        have hjn : j ≤ n := Nat.lt_succ_iff.mp (List.mem_range.mp hj)
        have : n + 1 - j = (n - j) + 1 := by omega
        rw [this, pow_succ]
        ring
      rw [hcg]
      simp [List.sum_map_mul_left]
    have hden : ((List.range (n + 1 + 1)).map (fun j => (1 - α) ^ (n + 1 - j))).sum =
        (1 - α) * ((List.range (n + 1)).map (fun j => (1 - α) ^ (n - j))).sum + 1 := by
      rw [List.range_succ, List.map_append, List.sum_append]
      have hcg : (List.range (n + 1)).map (fun j => (1 - α) ^ (n + 1 - j)) =
          (List.range (n + 1)).map (fun j => (1 - α) * (1 - α) ^ (n - j)) := by
        apply List.map_congr_left
        intro j hj
        have hjn : j ≤ n := Nat.lt_succ_iff.mp (List.mem_range.mp hj)
        have : n + 1 - j = (n - j) + 1 := by omega
        rw [this, pow_succ]
        ring
      rw [hcg]
      simp [List.sum_map_mul_left]
    rw [hnum, hden]
    simp [ewmStep]

theorem sortAsc_map_mul (k : ℚ) (hk : 0 < k) (l : List ℚ) :
    sortAsc (l.map (fun x => k * x)) = (sortAsc l).map (fun x => k * x) := by
  unfold sortAsc
  rw [← List.map_insertionSort (· ≤ ·) (· ≤ ·) (fun x => k * x) l]
  intro a _ b _
  exact (mul_le_mul_left hk).symm

theorem npMedian_map_mul (k : ℚ) (hk : 0 < k) (l : List ℚ) :
    npMedian (l.map (fun x => k * x)) = k * npMedian l := by
  rcases l with _ | ⟨a, t⟩
  · simp [npMedian, sortAsc, List.insertionSort]
  · have hlen : (sortAsc (a :: t)).length = (a :: t).length := by
      unfold sortAsc
      exact List.length_insertionSort _ (a :: t)
    unfold npMedian
    rw [sortAsc_map_mul k hk, List.length_map]
    have h1 : ((a :: t).length - 1) / 2 < (sortAsc (a :: t)).length := by
      rw [hlen]; simp; omega
    have h2 : (a :: t).length / 2 < (sortAsc (a :: t)).length := by
      rw [hlen]; simp; omega
    dsimp only
    rw [getD_map_lt _ _ _ _ 0 h1, getD_map_lt _ _ _ _ 0 h2]
    ring

theorem madList_map_mul (k : ℚ) (hk : 0 < k) (l : List ℚ) :
    madList (l.map (fun x => k * x)) = k * madList l := by
  unfold madList
  rw [npMedian_map_mul k hk l]
  have h1 : (l.map (fun x => k * x)).map (fun x => |x - k * npMedian l|) =
      (l.map (fun x => |x - npMedian l|)).map (fun x => k * x) := by
    rw [List.map_map, List.map_map]
    apply List.map_congr_left
    intro a _
    simp only [Function.comp]
    rw [← mul_sub, abs_mul, abs_of_nonneg hk.le]
  rw [h1, npMedian_map_mul k hk]

theorem win_map (f : ℚ → ℚ) (w : ℕ) (l : List ℚ) (i : ℕ) :
    win w (l.map f) i = (win w l i).map f := by
  unfold win
  rw [List.map_drop, List.map_take]

theorem isFull_map (f : ℚ → ℚ) (w : ℕ) (l : List ℚ) (i : ℕ) :
    isFull w (l.map f) i = isFull w l i := by
  unfold isFull
  rw [List.length_map]

theorem mean_of_unit_list {K : Type} [LinearOrderedField K] (l : List K)
    (hl : l.length ≠ 0) (h : ∀ x ∈ l, 0 ≤ x ∧ x ≤ 1) :
    0 ≤ l.sum / (l.length : K) ∧ l.sum / (l.length : K) ≤ 1 := by
  have hpos : (0 : K) < (l.length : K) := by
    exact_mod_cast Nat.pos_of_ne_zero hl
  constructor
  · exact div_nonneg (List.sum_nonneg (fun x hx => (h x hx).1)) hpos.le
  · rw [div_le_one hpos]
    calc l.sum ≤ l.length • (1 : K) :=
          List.sum_le_card_nsmul l 1 (fun x hx => (h x hx).2)
      _ = (l.length : K) := by simp

theorem indGT_mem_unit (thr : ℝ) (v : PF ℝ) : 0 ≤ v.indGT thr ∧ v.indGT thr ≤ 1 := by
  cases v with
  | nan => simp [PF.indGT]
  | pinf => simp [PF.indGT]
  | minf => simp [PF.indGT]
  | fin x =>
    simp only [PF.indGT]
    split <;> norm_num

theorem indGT_pfAbs_neg_one (u : PF ℝ) (h : (PF.pfAbs u).isNan = false) :
    (PF.pfAbs u).indGT (-1) = 1 := by
  cases u with
  | nan => simp [PF.pfAbs, PF.isNan] at h
  | pinf => simp [PF.pfAbs, PF.indGT]
  | minf => simp [PF.pfAbs, PF.indGT]
  | fin y =>
    simp only [PF.pfAbs, PF.indGT]
    rw [if_pos (lt_of_lt_of_le (by norm_num) (abs_nonneg y))]

theorem sum_map_eq_length {β : Type} (f : β → ℝ) (l : List β)
    (h : ∀ x ∈ l, f x = 1) : (l.map f).sum = l.length := by
  induction l with
  | nil => simp
  | cons a t ih =>
    simp [h a (List.mem_cons_self a t),
      ih (fun x hx => h x (List.mem_cons_of_mem a hx))]
    ring

theorem anomalyRate_neg_one (w : ℕ) (s : List ℚ) (i : ℕ)
    (hf : isFull w s i = true)
    (hz : ((winIdx w i).map (fun j => zAbs w s j)).all (fun v => !v.isNan) = true) :
    anomalyRate w (-1) s i = some 1 := by
  unfold anomalyRate
  dsimp only
  rw [hf, hz]
  simp only [Bool.true_and]
  norm_num
  have hone : ∀ v ∈ (winIdx w i).map (fun j => zAbs w s j), PF.indGT (-1) v = 1 := by
    intro v hv
    have hvn : v.isNan = false := by
      have := (List.all_eq_true.mp hz) v hv
      simpa using this
    obtain ⟨j, _, hj⟩ := List.mem_map.mp hv
    rw [← hj]
    rw [← hj] at hvn
    exact indGT_pfAbs_neg_one (zVal w s j) hvn
  rw [← List.map_map]
  rw [sum_map_eq_length _ _ hone]
  have hw : 1 ≤ w := by
    unfold isFull at hf
    simp only [Bool.and_eq_true, decide_eq_true_eq] at hf
    exact hf.1.1
  have hlen : ((winIdx w i).map (fun j => zAbs w s j)).length = w := by
    simp [winIdx]
  rw [hlen]
  have hwnz : w ≠ 0 := by omega
  have hwr : (w : ℝ) ≠ 0 := by
    exact_mod_cast hwnz
  rw [div_self hwr]

theorem dhzFold_at (ts : List ℤ) (s : List ℚ) (p : ℕ) :
    ∀ (ks : List (ℤ × ℤ)) (col : ℕ → ℝ),
      dhzFold ts s ks col p =
        if dhKey (ts.getD p 0) ∈ ks ∧
            (1 < (groupVals ts s (dhKey (ts.getD p 0))).length ∧
              0 < sampleVar (groupVals ts s (dhKey (ts.getD p 0)))) then
          ((s.getD p 0 : ℝ) - (listMean (groupVals ts s (dhKey (ts.getD p 0))) : ℝ)) /
            Real.sqrt (sampleVar (groupVals ts s (dhKey (ts.getD p 0))))
        else col p := by
  intro ks
  induction ks with
  | nil =>
    intro col
    simp [dhzFold]
  | cons k ks ih =>
    intro col
    have hstep : dhzFold ts s (k :: ks) col = dhzFold ts s ks (dhzUpd ts s col k) := rfl
    rw [hstep, ih]
    by_cases hq : 1 < (groupVals ts s (dhKey (ts.getD p 0))).length ∧
        0 < sampleVar (groupVals ts s (dhKey (ts.getD p 0)))
    · by_cases hmem : dhKey (ts.getD p 0) ∈ ks
      · rw [if_pos ⟨hmem, hq⟩, if_pos ⟨List.mem_cons_of_mem k hmem, hq⟩]
      · rw [if_neg (fun hc => hmem hc.1)]
        by_cases hk : dhKey (ts.getD p 0) = k
        · rw [if_pos ⟨by rw [hk]; exact List.mem_cons_self k ks, hq⟩]
          unfold dhzUpd
          rw [← hk, if_pos hq]
          simp
        · rw [if_neg (fun hc => (List.mem_cons.mp hc.1).elim hk hmem)]
          unfold dhzUpd
          by_cases hqk : 1 < (groupVals ts s k).length ∧ 0 < sampleVar (groupVals ts s k)
          · rw [if_pos hqk]
            simp only [if_neg hk]
          · rw [if_neg hqk]
    · rw [if_neg (fun hc => hq hc.2), if_neg (fun hc => hq hc.2)]
      unfold dhzUpd
      by_cases hqk : 1 < (groupVals ts s k).length ∧ 0 < sampleVar (groupVals ts s k)
      · rw [if_pos hqk]
        have hk : ¬(dhKey (ts.getD p 0) = k) := fun hc => hq (by rw [hc]; exact hqk)
        simp only [if_neg hk]
      · rw [if_neg hqk]

theorem zAbs_isNan (w : ℕ) (s : List ℚ) (i : ℕ) :
    (zAbs w s i).isNan = zIsNanB w s i := by
  unfold zAbs zVal zIsNanB
  by_cases h1 : stdDefined w s i = true
  · rw [if_pos h1]
    by_cases h2 : sampleVar (win w s i) = 0
    · rw [if_pos h2]
      by_cases h3 : s.getD i 0 - listMean (win w s i) = 0
      · rw [if_pos h3]
        simp only [PF.pfAbs, PF.isNan, h1, h2]
        simp
        rw [List.getD_eq_getElem?_getD] at h3
        exact h3
      · rw [if_neg h3]
        by_cases h4 : 0 < s.getD i 0 - listMean (win w s i)
        · rw [if_pos h4]
          simp only [PF.pfAbs, PF.isNan, h1, h2]
          simp
          rw [List.getD_eq_getElem?_getD] at h3
          exact h3
        · rw [if_neg h4]
          simp only [PF.pfAbs, PF.isNan, h1, h2]
          simp
          rw [List.getD_eq_getElem?_getD] at h3
          exact h3
    · rw [if_neg h2]
      simp [PF.pfAbs, PF.isNan, h1, h2]
  · rw [if_neg h1]
    rw [Bool.not_eq_true] at h1
    simp [PF.pfAbs, PF.isNan, h1]

theorem all_map_general {α β : Type} (f : α → β) (l : List α) (p : β → Bool) :
    (l.map f).all p = l.all (fun x => p (f x)) := by
  induction l with
  | nil => rfl
  | cons a t ih => simp [List.all_cons, ih]

theorem anomalyRate_isSome (w : ℕ) (thr : ℝ) (s : List ℚ) (i : ℕ) :
    (anomalyRate w thr s i).isSome = anomalyDefined w s i := by
  unfold anomalyRate anomalyDefined
  dsimp only
  have hall : ((winIdx w i).map (fun j => zAbs w s j)).all (fun v => !v.isNan) =
      (winIdx w i).all (fun j => !zIsNanB w s j) := by
    rw [all_map_general]
    exact congrArg _ (funext fun j => by
      show (!(zAbs w s j).isNan) = (!zIsNanB w s j)
      rw [zAbs_isNan])
  rw [hall]
  by_cases h : (isFull w s i && (winIdx w i).all fun j => !zIsNanB w s j) = true
  · rw [if_pos h, h]
    rfl
  · rw [if_neg h]
    rw [Bool.not_eq_true] at h
    rw [h]
    rfl

theorem anomalyRate_eq_none_of (w : ℕ) (thr : ℝ) (s : List ℚ) (i : ℕ)
    (h : anomalyDefined w s i = false) : anomalyRate w thr s i = none := by
  have hs := anomalyRate_isSome w thr s i
  rw [h] at hs
  exact Option.not_isSome_iff_eq_none.mp (by rw [hs]; simp)

theorem f_std_isSome (w : ℕ) (s : List ℚ) (i : ℕ) :
    (f_std w s i).isSome = stdDefined w s i := by
  unfold f_std
  by_cases h : stdDefined w s i = true
  · rw [if_pos h, h]
    rfl
  · rw [if_neg h]
    rw [Bool.not_eq_true] at h
    rw [h]
    rfl

theorem acfF_isSome (k w : ℕ) (s : List ℚ) (i : ℕ) :
    (acfF k w s i).isSome = acfDefined k w s i := by
  unfold acfF
  by_cases h : acfDefined k w s i = true
  · rw [if_pos h, h]
    rfl
  · rw [if_neg h]
    rw [Bool.not_eq_true] at h
    rw [h]
    rfl

theorem mapM_ok_forall2 {α β : Type} (f : α → Except String β) :
    ∀ (l : List α) (r : List β), List.mapM f l = .ok r →
      List.Forall₂ (fun a b => f a = .ok b) l r := by
  intro l
  induction l with
  | nil =>
    intro r h
    rw [List.mapM_nil] at h
    injection h with h2
    rw [← h2]
    exact List.Forall₂.nil
  | cons a t ih =>
    intro r h
    rw [List.mapM_cons] at h
    cases hfa : f a with
    | error e =>
      rw [hfa] at h
      exact Except.noConfusion h
    | ok b =>
      rw [hfa] at h
      have h2 : (List.mapM f t >>= fun bs => pure (b :: bs)) = .ok r := h
      cases hmt : List.mapM f t with
      | error e =>
        rw [hmt] at h2
        exact Except.noConfusion h2
      | ok bs =>
        rw [hmt] at h2
        have h3 : (pure (b :: bs) : Except String (List β)) = .ok r := h2
        injection h3 with h4
        rw [← h4]
        exact List.Forall₂.cons hfa (ih bs hmt)

theorem colStatsE_ok_empty_day (idx : List ℤ) (vals : List (Option ℚ))
    (dayStart dayEnd histStart : ℤ) (q1 q2 q3 sp : ℚ) (st : ColStats)
    (hok : colStatsE idx vals dayStart dayEnd histStart q1 q2 q3 sp = .ok st)
    (hempty : sliceVals idx vals dayStart dayEnd = []) :
    st.day_mean = none ∧ st.day_min = none ∧ st.day_max = none ∧
    st.day_qa = none ∧ st.day_qb = none ∧ st.day_qc = none ∧
    st.neg_share = none ∧ st.spike_share = none ∧ st.ramp_mean = none ∧
    st.ramp_std = none ∧ st.ramp_max_abs = none ∧
    st.day_vs_lag24 = none ∧ st.day_vs_lag168 = none := by
  unfold colStatsE at hok
  rw [hempty] at hok
  have hq : dayQuantilesE [] q1 q2 q3 = .ok (none, none, none) := by
    unfold dayQuantilesE
    simp
  rw [hq] at hok
  cases hsp : spikeThrE (sliceVals idx vals histStart dayEnd) sp with
  | error e =>
    rw [hsp] at hok
    exact Except.noConfusion hok
  | ok thr =>
    rw [hsp] at hok
    injection hok with hst
    rw [← hst]
    unfold buildStats
    dsimp only
    refine ⟨by simp, rfl, rfl, rfl, rfl, rfl, by simp [negShareF], ?_, by simp,
      by simp, by simp, ?_, ?_⟩
    · cases thr <;> simp [spikeShareF]
    · by_cases hl : (sliceValsHO idx vals (dayStart - 24) (dayEnd - 24)).length ≠ 0 <;>
        simp [hl]
    · by_cases hl : (sliceValsHO idx vals (dayStart - 168) (dayEnd - 168)).length ≠ 0 <;>
        simp [hl]

/-! ## Claims -/

/-- C10: whenever they are defined, the per-hour `anomaly_rate` (lines 68–72)
and the per-day `neg_share` (line 221) and `spike_share` (lines 223–224) lie
in `[0, 1]`: each is the mean of a `0/1` indicator over a non-empty finite
window/slice. -/
theorem C10_shares_in_unit_interval (w : ℕ) (thr : ℝ) (s : List ℚ) (i : ℕ)
    (l m : List ℚ) (t? : Option ℚ) (va : ℝ) (vn vs : ℚ)
    (ha : anomalyRate w thr s i = some va)
    (hn : negShareF l = some vn)
    (hs : spikeShareF m t? = some vs) :
    (0 ≤ va ∧ va ≤ 1) ∧ (0 ≤ vn ∧ vn ≤ 1) ∧ (0 ≤ vs ∧ vs ≤ 1) := by
  refine ⟨?_, ?_, ?_⟩
  · unfold anomalyRate at ha
    dsimp only at ha
    by_cases hc : (isFull w s i &&
        ((winIdx w i).map (fun j => zAbs w s j)).all (fun v => !v.isNan)) = true
    · rw [if_pos hc] at ha
      have hva : ((( winIdx w i).map (fun j => zAbs w s j)).map
          (fun v => PF.indGT thr v)).sum / (w : ℝ) = va := by
        exact Option.some_injective _ ha
      have hw : 1 ≤ w := by
        have hf : isFull w s i = true := by
          simp only [Bool.and_eq_true] at hc
          exact hc.1
        unfold isFull at hf
        simp only [Bool.and_eq_true, decide_eq_true_eq] at hf
        exact hf.1.1
      have hlen : (((winIdx w i).map (fun j => zAbs w s j)).map
          (fun v => PF.indGT thr v)).length = w := by
        simp [winIdx]
      have hb := mean_of_unit_list
        (((winIdx w i).map (fun j => zAbs w s j)).map (fun v => PF.indGT thr v))
        (by rw [hlen]; omega)
        (by
          intro x hx
          obtain ⟨v, _, hv⟩ := List.mem_map.mp hx
          rw [← hv]
          exact indGT_mem_unit thr v)
      rw [hlen] at hb
      rw [hva] at hb
      exact hb
    · rw [if_neg hc] at ha
      exact absurd ha (by simp)
  · unfold negShareF at hn
    by_cases hl0 : l.length ≠ 0
    · rw [if_pos hl0] at hn
      have hvn : listMean (l.map (fun x => if x < 0 then (1 : ℚ) else 0)) = vn :=
        Option.some_injective _ hn
      unfold listMean at hvn
      have hb := mean_of_unit_list (l.map (fun x => if x < 0 then (1 : ℚ) else 0))
        (by simpa using hl0)
        (by
          intro x hx
          obtain ⟨y, _, hy⟩ := List.mem_map.mp hx
          rw [← hy]
          split <;> norm_num)
      rw [hvn] at hb
      exact hb
    · rw [if_neg hl0] at hn
      exact absurd hn (by simp)
  · cases t? with
    | none => exact absurd hs (by simp [spikeShareF])
    | some thr2 =>
      simp only [spikeShareF] at hs
      by_cases hm0 : m.length ≠ 0
      · rw [if_pos hm0] at hs
        have hvs : listMean (m.map (fun x => if thr2 < x then (1 : ℚ) else 0)) = vs :=
          Option.some_injective _ hs
        unfold listMean at hvs
        have hb := mean_of_unit_list (m.map (fun x => if thr2 < x then (1 : ℚ) else 0))
          (by simpa using hm0)
          (by
            intro x hx
            obtain ⟨y, _, hy⟩ := List.mem_map.mp hx
            rw [← hy]
            split <;> norm_num)
        rw [hvs] at hb
        exact hb
      · rw [if_neg hm0] at hs
        exact absurd hs (by simp)

/-- C10, witness: `anomaly_rate` at `w = 2`, threshold `-1`, series
`[0, 1, 0]`, position 2 (value 1); `neg_share` of `[-1, 2, 3]` (value `1/3`);
`spike_share` of `[5]` against threshold `3/2` (value 1). -/
theorem C10_witness :
    anomalyRate 2 (-1) [0, 1, 0] 2 = some 1 ∧
    negShareF [-1, 2, 3] = some (1/3) ∧
    spikeShareF [5] (some (3/2)) = some 1 ∧
    (((0 : ℝ) ≤ 1 ∧ (1 : ℝ) ≤ 1) ∧ ((0 : ℚ) ≤ 1/3 ∧ (1/3 : ℚ) ≤ 1) ∧
      ((0 : ℚ) ≤ 1 ∧ (1 : ℚ) ≤ 1)) := by
  have ha : anomalyRate 2 (-1) [0, 1, 0] 2 = some 1 :=
    anomalyRate_neg_one 2 [0, 1, 0] 2 (by with_unfolding_all decide)
      (by with_unfolding_all decide)
  have hn : negShareF [-1, 2, 3] = some (1/3) := by with_unfolding_all decide
  have hs : spikeShareF [5] (some (3/2)) = some 1 := by with_unfolding_all decide
  exact ⟨ha, hn, hs,
    C10_shares_in_unit_interval 2 (-1) [0, 1, 0] 2 [-1, 2, 3] [5] (some (3/2))
      1 (1/3) 1 ha hn hs⟩

/-- C1, counterexample to the claim as stated: take `w = 2` and the series
`[0, 1, 2, 3]` (every length-2 window has nonzero variance, so the features
are statistically well-posed).  At the `w`-th position (0-based row `1`) the
rolling mean is defined, yet both `anomaly_rate` (a rolling window *over* the
already-windowed `z_abs`, whose first `w−1` cells are NaN) and `mean_shift`
(the diff of the rolling mean, whose previous cell is NaN) are missing. -/
theorem C1_cex_anomaly_rate_and_mean_shift :
    sampleVar (win 2 [0, 1, 2, 3] 1) ≠ 0 ∧
    (f_mean 2 [0, 1, 2, 3] 1).isSome = true ∧
    f_mean_shift 2 [0, 1, 2, 3] 1 = none ∧
    anomalyRate 2 3 [0, 1, 2, 3] 1 = none :=
  ⟨by with_unfolding_all decide, by with_unfolding_all decide,
    by with_unfolding_all decide,
    anomalyRate_eq_none_of 2 3 [0, 1, 2, 3] 1 (by with_unfolding_all decide)⟩

/-- C1 (amended): for a window of size `w ≥ 1` over a series with no missing
values, at every in-range position `i` (0-based):
(a) at rows `0 … w−2` every rolling column — mean, std, mad, q25, q75, iqr,
z_abs, anomaly_rate, rz_abs, vol_rolling, acf1, acf2, mean_shift — is missing;
(b) from row `w−1` on, mean/mad/q25/q75/iqr are always defined; std and
vol_rolling are defined when `w ≥ 2`; z_abs is a finite value when moreover
the window variance is nonzero; rz_abs is finite when the window MAD is
nonzero; the lag-`k` autocorrelation is defined when `w ≥ k+2` and both paired
sub-windows have nonzero variance;
(c) `anomaly_rate`, being a rolling window over the already-windowed `z_abs`,
is missing at rows `0 … 2w−3` and defined from row `2w−2` on (for `w ≥ 2`,
when every contributing window has nonzero variance);
(d) `mean_shift`, the diff of the rolling mean, is missing at rows `0 … w−1`
and defined from row `w` on. -/
theorem C1_rolling_definedness (w : ℕ) (thr : ℝ) (s : List ℚ) (i : ℕ)
    (hw : 1 ≤ w) (hi : i < s.length) :
    (i + 1 < w →
      f_mean w s i = none ∧ f_std w s i = none ∧ f_mad w s i = none ∧
      f_q25 w s i = none ∧ f_q75 w s i = none ∧ f_iqr w s i = none ∧
      zAbs w s i = PF.nan ∧ anomalyRate w thr s i = none ∧
      rzAbs w s i = PF.nan ∧ f_vol_rolling w s i = none ∧
      acfF 1 w s i = none ∧ acfF 2 w s i = none ∧ f_mean_shift w s i = none) ∧
    (w ≤ i + 1 →
      (f_mean w s i).isSome = true ∧ (f_mad w s i).isSome = true ∧
      (f_q25 w s i).isSome = true ∧ (f_q75 w s i).isSome = true ∧
      (f_iqr w s i).isSome = true ∧
      (2 ≤ w → (f_std w s i).isSome = true ∧ (f_vol_rolling w s i).isSome = true) ∧
      (2 ≤ w → sampleVar (win w s i) ≠ 0 → ∃ x : ℝ, zAbs w s i = PF.fin x) ∧
      (madList (win w s i) ≠ 0 → ∃ x : ℚ, rzAbs w s i = PF.fin x) ∧
      (∀ k, k + 2 ≤ w → sampleVar (acfPair k (win w s i)).1 ≠ 0 →
        sampleVar (acfPair k (win w s i)).2 ≠ 0 → (acfF k w s i).isSome = true)) ∧
    (i + 2 < 2 * w → anomalyRate w thr s i = none) ∧
    (2 * w ≤ i + 2 → 2 ≤ w →
      (∀ j, i + 1 - w ≤ j → j ≤ i → sampleVar (win w s j) ≠ 0) →
      (anomalyRate w thr s i).isSome = true) ∧
    (i < w → f_mean_shift w s i = none) ∧
    (w ≤ i → (f_mean_shift w s i).isSome = true) := by
  refine ⟨?_, ?_, ?_, ?_, ?_, ?_⟩
  · -- (a) rows before w−1: everything missing
    intro hlt
    have hnf : isFull w s i = false := by
      unfold isFull
      rw [Bool.eq_false_iff]
      intro hc
      simp only [Bool.and_eq_true, decide_eq_true_eq] at hc
      omega
    have hsd : stdDefined w s i = false := by
      unfold stdDefined
      rw [hnf, Bool.and_false]
    have hmean : f_mean w s i = none := by
      unfold f_mean
      rw [hnf]
      simp
    have hstd : f_std w s i = none := by
      unfold f_std
      rw [hsd]
      simp
    have hmad : f_mad w s i = none := by
      unfold f_mad
      rw [hnf]
      simp
    have hq25 : f_q25 w s i = none := by
      unfold f_q25
      rw [hnf]
      simp
    have hq75 : f_q75 w s i = none := by
      unfold f_q75
      rw [hnf]
      simp
    have hiqr : f_iqr w s i = none := by
      unfold f_iqr
      rw [hq75, hq25]
    have hz : zAbs w s i = PF.nan := by
      unfold zAbs zVal
      rw [hsd]
      simp [PF.pfAbs]
    have hanom : anomalyRate w thr s i = none := by
      apply anomalyRate_eq_none_of
      unfold anomalyDefined
      rw [hnf, Bool.false_and]
    have hrz : rzAbs w s i = PF.nan := by
      unfold rzAbs rzVal
      rw [hnf]
      simp [PF.pfAbs]
    have hvol : f_vol_rolling w s i = none := by
      unfold f_vol_rolling
      exact hstd
    have hacf : ∀ k, acfF k w s i = none := by
      intro k
      have had : acfDefined k w s i = false := by
        unfold acfDefined
        rw [hnf]
        simp
      unfold acfF
      rw [had]
      simp
    have hms : f_mean_shift w s i = none := by
      unfold f_mean_shift
      by_cases h0 : i = 0
      · rw [if_pos h0]
      · rw [if_neg h0]
        rw [hmean]
        cases f_mean w s (i - 1) <;> rfl
    exact ⟨hmean, hstd, hmad, hq25, hq75, hiqr, hz, hanom, hrz, hvol,
      hacf 1, hacf 2, hms⟩
  · -- (b) from row w−1 on: defined when well-posed
    intro hge
    have hf : isFull w s i = true := by
      unfold isFull
      simp only [Bool.and_eq_true, decide_eq_true_eq]
      exact ⟨⟨hw, hge⟩, hi⟩
    refine ⟨?_, ?_, ?_, ?_, ?_, ?_, ?_, ?_, ?_⟩
    · unfold f_mean
      rw [hf]
      rfl
    · unfold f_mad
      rw [hf]
      rfl
    · unfold f_q25
      rw [hf]
      rfl
    · unfold f_q75
      rw [hf]
      rfl
    · have hq25v : f_q25 w s i = some (pquantileVal (1/4) (win w s i)) := by
        unfold f_q25
        rw [hf]
        rfl
      have hq75v : f_q75 w s i = some (pquantileVal (3/4) (win w s i)) := by
        unfold f_q75
        rw [hf]
        rfl
      unfold f_iqr
      rw [hq25v, hq75v]
      rfl
    · intro h2
      have hsd : stdDefined w s i = true := by
        unfold stdDefined
        rw [hf, Bool.and_true]
        simp [h2]
      constructor
      · rw [f_std_isSome, hsd]
      · unfold f_vol_rolling
        rw [f_std_isSome, hsd]
    · intro h2 hvar
      have hsd : stdDefined w s i = true := by
        unfold stdDefined
        rw [hf, Bool.and_true]
        simp [h2]
      exact ⟨|((s.getD i 0 - listMean (win w s i) : ℚ) : ℝ) /
          Real.sqrt (sampleVar (win w s i))|, by
        unfold zAbs zVal
        rw [if_pos hsd, if_neg hvar]
        rfl⟩
    · intro hmadnz
      exact ⟨|(s.getD i 0 - npMedian (win w s i)) /
          ((14826/10000) * madList (win w s i))|, by
        unfold rzAbs rzVal pfDivQ
        rw [if_pos hf, if_neg (mul_ne_zero (by norm_num) hmadnz)]
        rfl⟩
    · intro k hk h1 h2
      have had : acfDefined k w s i = true := by
        unfold acfDefined
        rw [hf]
        simp [hk, h1, h2]
      rw [acfF_isSome, had]
  · -- (c1) anomaly_rate missing before row 2w−2
    intro hlt
    apply anomalyRate_eq_none_of
    unfold anomalyDefined
    by_cases hf : isFull w s i = true
    · rw [hf, Bool.true_and]
      rw [Bool.eq_false_iff]
      intro hall
      have hmem : (i + 1 - w) ∈ winIdx w i := by
        unfold winIdx
        exact List.mem_map.mpr ⟨0, List.mem_range.mpr (by omega), by omega⟩
      have hj := List.all_eq_true.mp hall _ hmem
      have hz : zIsNanB w s (i + 1 - w) = true := by
        unfold zIsNanB
        have hsd : stdDefined w s (i + 1 - w) = false := by
          unfold stdDefined isFull
          rw [Bool.eq_false_iff]
          intro hc
          simp only [Bool.and_eq_true, decide_eq_true_eq] at hc
          omega
        rw [hsd]
        simp
      rw [hz] at hj
      simp at hj
    · rw [Bool.not_eq_true] at hf
      rw [hf, Bool.false_and]
  · -- (c2) anomaly_rate defined from row 2w−2 when variances are nonzero
    intro hge h2 hvar
    rw [anomalyRate_isSome]
    unfold anomalyDefined
    have hf : isFull w s i = true := by
      unfold isFull
      simp only [Bool.and_eq_true, decide_eq_true_eq]
      exact ⟨⟨hw, by omega⟩, hi⟩
    rw [hf, Bool.true_and]
    rw [List.all_eq_true]
    intro j hj
    obtain ⟨d, hd, hdj⟩ := List.mem_map.mp hj
    have hdr := List.mem_range.mp hd
    have hnan : zIsNanB w s j = false := by
      unfold zIsNanB
      have hsd : stdDefined w s j = true := by
        unfold stdDefined isFull
        simp only [Bool.and_eq_true, decide_eq_true_eq]
        omega
      rw [hsd]
      have hv := hvar j (by omega) (by omega)
      simp [hv]
    rw [hnan]
    rfl
  · -- (d1) mean_shift missing at rows 0 … w−1
    intro hlt
    unfold f_mean_shift
    by_cases h0 : i = 0
    · rw [if_pos h0]
    · rw [if_neg h0]
      have hm1 : f_mean w s (i - 1) = none := by
        unfold f_mean
        have hf1 : isFull w s (i - 1) = false := by
          unfold isFull
          rw [Bool.eq_false_iff]
          intro hc
          simp only [Bool.and_eq_true, decide_eq_true_eq] at hc
          omega
        rw [hf1]
        simp
      rw [hm1]
  · -- (d2) mean_shift defined from row w
    intro hge
    unfold f_mean_shift
    have h0 : ¬(i = 0) := by omega
    rw [if_neg h0]
    have hm1 : f_mean w s (i - 1) = some (listMean (win w s (i - 1))) := by
      unfold f_mean
      have hf1 : isFull w s (i - 1) = true := by
        unfold isFull
        simp only [Bool.and_eq_true, decide_eq_true_eq]
        exact ⟨⟨hw, by omega⟩, by omega⟩
      rw [hf1]
      rfl
    have hm2 : f_mean w s i = some (listMean (win w s i)) := by
      unfold f_mean
      have hf2 : isFull w s i = true := by
        unfold isFull
        simp only [Bool.and_eq_true, decide_eq_true_eq]
        exact ⟨⟨hw, by omega⟩, hi⟩
      rw [hf2]
      rfl
    rw [hm1, hm2]
    rfl

/-- C1, witness for the amended theorem at `w = 2`, threshold `3`,
`s = [0, 1, 2, 3, 4]`, `i = 3`. -/
theorem C1_witness :
    1 ≤ 2 ∧ 3 < ([0, 1, 2, 3, 4] : List ℚ).length ∧
    ((3 + 1 < 2 →
      f_mean 2 [0, 1, 2, 3, 4] 3 = none ∧ f_std 2 [0, 1, 2, 3, 4] 3 = none ∧
      f_mad 2 [0, 1, 2, 3, 4] 3 = none ∧ f_q25 2 [0, 1, 2, 3, 4] 3 = none ∧
      f_q75 2 [0, 1, 2, 3, 4] 3 = none ∧ f_iqr 2 [0, 1, 2, 3, 4] 3 = none ∧
      zAbs 2 [0, 1, 2, 3, 4] 3 = PF.nan ∧ anomalyRate 2 3 [0, 1, 2, 3, 4] 3 = none ∧
      rzAbs 2 [0, 1, 2, 3, 4] 3 = PF.nan ∧ f_vol_rolling 2 [0, 1, 2, 3, 4] 3 = none ∧
      acfF 1 2 [0, 1, 2, 3, 4] 3 = none ∧ acfF 2 2 [0, 1, 2, 3, 4] 3 = none ∧
      f_mean_shift 2 [0, 1, 2, 3, 4] 3 = none) ∧
    (2 ≤ 3 + 1 →
      (f_mean 2 [0, 1, 2, 3, 4] 3).isSome = true ∧
      (f_mad 2 [0, 1, 2, 3, 4] 3).isSome = true ∧
      (f_q25 2 [0, 1, 2, 3, 4] 3).isSome = true ∧
      (f_q75 2 [0, 1, 2, 3, 4] 3).isSome = true ∧
      (f_iqr 2 [0, 1, 2, 3, 4] 3).isSome = true ∧
      (2 ≤ 2 → (f_std 2 [0, 1, 2, 3, 4] 3).isSome = true ∧
        (f_vol_rolling 2 [0, 1, 2, 3, 4] 3).isSome = true) ∧
      (2 ≤ 2 → sampleVar (win 2 [0, 1, 2, 3, 4] 3) ≠ 0 →
        ∃ x : ℝ, zAbs 2 [0, 1, 2, 3, 4] 3 = PF.fin x) ∧
      (madList (win 2 [0, 1, 2, 3, 4] 3) ≠ 0 →
        ∃ x : ℚ, rzAbs 2 [0, 1, 2, 3, 4] 3 = PF.fin x) ∧
      (∀ k, k + 2 ≤ 2 → sampleVar (acfPair k (win 2 [0, 1, 2, 3, 4] 3)).1 ≠ 0 →
        sampleVar (acfPair k (win 2 [0, 1, 2, 3, 4] 3)).2 ≠ 0 →
        (acfF k 2 [0, 1, 2, 3, 4] 3).isSome = true)) ∧
    (3 + 2 < 2 * 2 → anomalyRate 2 3 [0, 1, 2, 3, 4] 3 = none) ∧
    (2 * 2 ≤ 3 + 2 → 2 ≤ 2 →
      (∀ j, 3 + 1 - 2 ≤ j → j ≤ 3 → sampleVar (win 2 [0, 1, 2, 3, 4] j) ≠ 0) →
      (anomalyRate 2 3 [0, 1, 2, 3, 4] 3).isSome = true) ∧
    (3 < 2 → f_mean_shift 2 [0, 1, 2, 3, 4] 3 = none) ∧
    (2 ≤ 3 → (f_mean_shift 2 [0, 1, 2, 3, 4] 3).isSome = true)) :=
  ⟨by decide, by decide,
    C1_rolling_definedness 2 3 [0, 1, 2, 3, 4] 3 (by decide) (by decide)⟩

/-- C7, counterexample to the claim as stated: on `cexIdx`/`cexVals` (day 7
raw values all missing, the preceding 24 hours present) with the ramp
decomposition, the analyzer succeeds with 25 surviving hourly rows and an
empty raw day slice — yet the day-level column `lag24_mean` for the series is
`0`, a defined value, because the lag windows (lines 232–238) are computed
from the preceding days' raw values and do not depend on the day slice.  Not
*all* of the series' day-level columns are missing. -/
theorem C7_cex_lag24_mean_defined :
    sliceVals cexIdx cexVals (dayStartOf 7) (dayEndOf 7) = [] ∧
    resTimes cexRes ≠ some [] ∧
    (statOf cexRes "a").map (fun st => st.lag24_mean) = some (some 0) ∧
    (statOf cexRes "a").map (fun st => st.day_mean) = some none := by
  refine ⟨?_, ?_, ?_, ?_⟩
  · with_unfolding_all decide
  · with_unfolding_all decide
  · with_unfolding_all decide
  · with_unfolding_all decide

/-- C7 (amended): insufficient data degrades per-series instead of raising.
If the analyzer returns a table with no surviving hourly rows, the day-level
columns are absent (`dayStats = none`) while the calendar columns are still
carried by the (empty) table.  If rows survived, a day-level statistics entry
is computed for *every* input series, in order; and for a series whose raw
day slice is empty after dropping missing values, every day-level column is
missing *except* `lag24_mean`/`lag168_mean`, which depend only on the two
preceding lag windows and are defined whenever those windows contain data
(`day_vs_lag24`/`day_vs_lag168` remain missing). -/
theorem C7_insufficient_data (decompose : List (ℤ × Option ℚ) → Except String (List ℚ))
    (idx : List ℤ) (cols : List (String × List (Option ℚ))) (day : ℤ) (w : ℕ)
    (hh : ℤ) (q1 q2 q3 sp : ℚ) (T : DayTable)
    (h : analyzeDay decompose idx cols day w hh q1 q2 q3 sp = .ok T) :
    (T.times = [] → T.dayStats = none) ∧
    (T.times ≠ [] → ∃ l, T.dayStats = some l ∧
      List.Forall₂ (fun (cv : String × List (Option ℚ)) (p : String × ColStats) =>
        cv.1 = p.1 ∧
        (sliceVals idx cv.2 (dayStartOf day) (dayEndOf day) = [] →
          p.2.day_mean = none ∧ p.2.day_min = none ∧ p.2.day_max = none ∧
          p.2.day_qa = none ∧ p.2.day_qb = none ∧ p.2.day_qc = none ∧
          p.2.neg_share = none ∧ p.2.spike_share = none ∧ p.2.ramp_mean = none ∧
          p.2.ramp_std = none ∧ p.2.ramp_max_abs = none ∧
          p.2.day_vs_lag24 = none ∧ p.2.day_vs_lag168 = none)) cols l) := by
  unfold analyzeDay at h
  dsimp only at h
  split at h
  · exact Except.noConfusion h
  · rename_i resid hres
    split at h
    · rename_i hemp
      injection h with hT
      rw [← hT]
      exact ⟨fun _ => rfl, fun hne => absurd (List.isEmpty_iff.mp hemp) hne⟩
    · rename_i hemp
      split at h
      · exact Except.noConfusion h
      · rename_i l hst
        injection h with hT
        rw [← hT]
        constructor
        · intro ht
          exact absurd (List.isEmpty_iff.mpr ht) hemp
        · intro _
          refine ⟨l, rfl, ?_⟩
          unfold dayStatsE at hst
          have hf2 := mapM_ok_forall2 _ cols l hst
          refine hf2.imp ?_
          intro cv p hcv
          cases hcs : colStatsE idx cv.2 (dayStartOf day) (dayEndOf day)
              (dayEndOf day - hh) q1 q2 q3 sp with
          | error e =>
            rw [hcs] at hcv
            exact Except.noConfusion hcv
          | ok st =>
            rw [hcs] at hcv
            injection hcv with hp
            rw [← hp]
            exact ⟨rfl, fun hempty =>
              colStatsE_ok_empty_day idx cv.2 (dayStartOf day) (dayEndOf day)
                (dayEndOf day - hh) q1 q2 q3 sp st hcs hempty⟩

/-- C7, witness for the amended theorem: a two-row table whose day keeps no
complete feature rows — the analyzer returns the empty table with
`dayStats = none`. -/
theorem C7_witness :
    analyzeDay idResid [0, 1] [("a", [some 1, some 2])] 0 2 720
      (1/10) (1/2) (9/10) (19/20) = .ok (DayTable.mk [] [] [] none) ∧
    (((DayTable.mk [] [] [] none).times = [] →
        (DayTable.mk [] [] [] none).dayStats = none) ∧
      ((DayTable.mk [] [] [] none).times ≠ [] → ∃ l,
        (DayTable.mk [] [] [] none).dayStats = some l ∧
        List.Forall₂ (fun (cv : String × List (Option ℚ)) (p : String × ColStats) =>
          cv.1 = p.1 ∧
          (sliceVals [0, 1] cv.2 (dayStartOf 0) (dayEndOf 0) = [] →
            p.2.day_mean = none ∧ p.2.day_min = none ∧ p.2.day_max = none ∧
            p.2.day_qa = none ∧ p.2.day_qb = none ∧ p.2.day_qc = none ∧
            p.2.neg_share = none ∧ p.2.spike_share = none ∧ p.2.ramp_mean = none ∧
            p.2.ramp_std = none ∧ p.2.ramp_max_abs = none ∧
            p.2.day_vs_lag24 = none ∧ p.2.day_vs_lag168 = none))
          [("a", [some 1, some 2])] l)) := by
  have h : analyzeDay idResid [0, 1] [("a", [some 1, some 2])] 0 2 720
      (1/10) (1/2) (9/10) (19/20) = .ok (DayTable.mk [] [] [] none) := by
    with_unfolding_all rfl
  exact ⟨h, C7_insufficient_data idResid [0, 1] [("a", [some 1, some 2])] 0 2 720
    (1/10) (1/2) (9/10) (19/20) (DayTable.mk [] [] [] none) h⟩

/-- C4: `dow_hour_z` groups the *entire provided series* by
`(weekday, hour-of-day)`.  At every position whose bucket has more than one
member and positive standard deviation (equivalently positive sample
variance), the cell equals `(value − bucket_mean)/bucket_std` computed over
the full series; at every other position the cell is exactly `0.0` — and the
column is total (valued in `ℝ`), never missing. -/
theorem C4_dow_hour_z_characterization (ts : List ℤ) (s : List ℚ) (p : ℕ)
    (hp : p < ts.length) :
    (1 < (groupVals ts s (dhKey (ts.getD p 0))).length ∧
        0 < sampleVar (groupVals ts s (dhKey (ts.getD p 0))) →
      dhzCol ts s p =
        ((s.getD p 0 : ℝ) - (listMean (groupVals ts s (dhKey (ts.getD p 0))) : ℝ)) /
          Real.sqrt (sampleVar (groupVals ts s (dhKey (ts.getD p 0))))) ∧
    (¬(1 < (groupVals ts s (dhKey (ts.getD p 0))).length ∧
        0 < sampleVar (groupVals ts s (dhKey (ts.getD p 0)))) →
      dhzCol ts s p = 0) := by
  have hmem : dhKey (ts.getD p 0) ∈ (ts.map dhKey).dedup := by
    rw [List.mem_dedup]
    rw [List.getD_eq_getElem ts 0 hp]
    exact List.mem_map_of_mem dhKey (List.getElem_mem hp)
  unfold dhzCol
  constructor <;> intro h
  · rw [dhzFold_at, if_pos ⟨hmem, h⟩]
  · rw [dhzFold_at, if_neg (fun hc => h hc.2)]

/-- C4, witness at `ts = [0, 168, 1]`, `s = [1, 3, 5]`, `p = 0` (position 0's
bucket `(Monday, hour 0)` contains positions 0 and 1). -/
theorem C4_witness :
    (0 : ℕ) < ([0, 168, 1] : List ℤ).length ∧
    ((1 < (groupVals [0, 168, 1] [1, 3, 5] (dhKey (([0, 168, 1] : List ℤ).getD 0 0))).length ∧
        0 < sampleVar (groupVals [0, 168, 1] [1, 3, 5] (dhKey (([0, 168, 1] : List ℤ).getD 0 0))) →
      dhzCol [0, 168, 1] [1, 3, 5] 0 =
        ((([1, 3, 5] : List ℚ).getD 0 0 : ℝ) -
          (listMean (groupVals [0, 168, 1] [1, 3, 5] (dhKey (([0, 168, 1] : List ℤ).getD 0 0))) : ℝ)) /
          Real.sqrt (sampleVar (groupVals [0, 168, 1] [1, 3, 5] (dhKey (([0, 168, 1] : List ℤ).getD 0 0))))) ∧
    (¬(1 < (groupVals [0, 168, 1] [1, 3, 5] (dhKey (([0, 168, 1] : List ℤ).getD 0 0))).length ∧
        0 < sampleVar (groupVals [0, 168, 1] [1, 3, 5] (dhKey (([0, 168, 1] : List ℤ).getD 0 0)))) →
      dhzCol [0, 168, 1] [1, 3, 5] 0 = 0)) :=
  ⟨by decide, C4_dow_hour_z_characterization [0, 168, 1] [1, 3, 5] 0 (by decide)⟩

/-- C3, counterexample to the claim as stated: at window `[0, 0, 1]` with
`w = 3`, the rolling MAD is `0`, yet `rz_abs` at the last position is `+inf` —
a non-missing cell (`+inf ≠ NaN`), which `dropna` does not remove — rather
than an undefined (missing) value. -/
theorem C3_cex_rz_abs_inf :
    madList (win 3 [0, 0, 1] 2) = 0 ∧ rzAbs 3 [0, 0, 1] 2 = PF.pinf ∧
      (PF.pinf : PF ℚ) ≠ PF.nan := by
  refine ⟨by with_unfolding_all decide, by with_unfolding_all decide, by simp⟩

/-- C3 (amended): at every full window whose MAD is zero, the `rz_abs` cell is
never a *finite* number and its computation never raises: it is NaN (missing)
when the current value equals the window median (`0.0/0.0`) and `+inf`
otherwise (`±x/0.0` followed by `abs`). -/
theorem C3_rz_abs_zero_mad (w : ℕ) (s : List ℚ) (i : ℕ)
    (hfull : isFull w s i = true) (hmad : madList (win w s i) = 0) :
    rzAbs w s i =
      (if s.getD i 0 = npMedian (win w s i) then PF.nan else PF.pinf) ∧
    ∀ x : ℚ, rzAbs w s i ≠ PF.fin x := by
  have hz : rzAbs w s i =
      (if s.getD i 0 = npMedian (win w s i) then PF.nan else PF.pinf) := by
    unfold rzAbs rzVal pfDivQ
    rw [if_pos hfull, hmad]
    have hden : (14826 / 10000 : ℚ) * 0 = 0 := by ring
    rw [hden, if_pos rfl]
    by_cases h0 : s.getD i 0 - npMedian (win w s i) = 0
    · rw [if_pos h0, if_pos (sub_eq_zero.mp h0)]
      rfl
    · rw [if_neg h0]
      have hne : s.getD i 0 ≠ npMedian (win w s i) :=
        fun hc => h0 (by rw [hc, sub_self])
      rw [if_neg hne]
      rcases lt_trichotomy (s.getD i 0 - npMedian (win w s i)) 0 with hlt | he | hgt
      · rw [if_neg (by linarith)]
        rfl
      · exact absurd he h0
      · rw [if_pos hgt]
        rfl
  refine ⟨hz, fun x hx => ?_⟩
  rw [hz] at hx
  by_cases h : s.getD i 0 = npMedian (win w s i)
  · rw [if_pos h] at hx
    exact PF.noConfusion hx
  · rw [if_neg h] at hx
    exact PF.noConfusion hx

/-- C3, witness for the amended theorem at `w = 3`, `s = [0, 0, 1]`, `i = 2`. -/
theorem C3_witness :
    isFull 3 [0, 0, 1] 2 = true ∧ madList (win 3 [0, 0, 1] 2) = 0 ∧
      (rzAbs 3 [0, 0, 1] 2 =
        (if ([0, 0, 1] : List ℚ).getD 2 0 = npMedian (win 3 [0, 0, 1] 2)
         then PF.nan else PF.pinf) ∧
       ∀ x : ℚ, rzAbs 3 [0, 0, 1] 2 ≠ PF.fin x) :=
  ⟨by with_unfolding_all decide, by with_unfolding_all decide,
    C3_rz_abs_zero_mad 3 [0, 0, 1] 2 (by with_unfolding_all decide)
      (by with_unfolding_all decide)⟩

/-- C5, counterexample to the claim as stated: for the series `[0, 0, 3]`
(global mean `1`, absolute deviations `[1, 1, 2]`) and `alpha = 1/10`, the
code's `vol_ewma` at the last position is `371/271` (pandas `ewm.mean()` with
its default `adjust=True` normalization), while the unadjusted EWMA of the
same deviations is `11/10`. -/
theorem C5_cex_vol_ewma_adjusted :
    volEwma (1/10) [0, 0, 3] 2 = 371/271 ∧
    specVolEwmaNoAdjust (1/10) [0, 0, 3] 2 = 11/10 ∧
    (371/271 : ℚ) ≠ 11/10 := by
  refine ⟨by with_unfolding_all decide, by with_unfolding_all decide,
    by norm_num⟩

/-- C5 (amended): `vol_ewma` is the *adjusted* (weight-normalized, pandas
default `adjust=True`) exponentially weighted moving average of the absolute
deviations `|s(j) − m|` from the single fixed mean `m` of the entire provided
series: at position `i` it equals
`Σ_j (1−α)^(i−j)·|s(j) − m| / Σ_j (1−α)^(i−j)` over `j ≤ i`. -/
theorem C5_vol_ewma_adjusted_closed_form (α : ℚ) (s : List ℚ) (i : ℕ)
    (hi : i < s.length) :
    volEwma α s i =
      (((List.range (i + 1)).map
        (fun j => (1 - α) ^ (i - j) * |s.getD j 0 - listMean s|)).sum) /
      (((List.range (i + 1)).map (fun j => (1 - α) ^ (i - j))).sum) := by
  unfold volEwma ewmAdjAt
  have hl : i < (s.map (fun x => |x - listMean s|)).length := by
    simpa using hi
  rw [ewm_foldl_closed α _ i hl]
  dsimp only
  congr 1
  apply congrArg List.sum
  apply List.map_congr_left
  intro j hj
  have hji : j < s.length := lt_of_le_of_lt (Nat.lt_succ_iff.mp (List.mem_range.mp hj)) hi
  rw [getD_map_lt _ _ _ _ 0 hji]

/-- C5, witness for the amended theorem at `α = 1/10`, `s = [0, 0, 3]`,
`i = 2`. -/
theorem C5_witness :
    2 < ([0, 0, 3] : List ℚ).length ∧
    volEwma (1/10) [0, 0, 3] 2 =
      (((List.range 3).map
        (fun j => (1 - 1/10 : ℚ) ^ (2 - j) * |([0, 0, 3] : List ℚ).getD j 0 - listMean [0, 0, 3]|)).sum) /
      (((List.range 3).map (fun j => (1 - 1/10 : ℚ) ^ (2 - j))).sum) :=
  ⟨by decide, C5_vol_ewma_adjusted_closed_form (1/10) [0, 0, 3] 2 (by decide)⟩

/-- C2: the day window is `[day_start, day_end]` with
`day_end = day_start + 24` hours (midnight of the next day), and both the
feature-row selection (line 206) and the raw day slice (line 213) are
inclusive of `day_end`: a row stamped exactly at `day_end`, carrying a value,
is selected into the day's rows before the missing-value drop, and its raw
value enters the day slice. -/
theorem C2_day_end_inclusive (day : ℤ) (idx : List ℤ) (vals : List (Option ℚ))
    (histTimes : List ℤ) (p j : ℕ) (v : ℚ)
    (hp : p < idx.length) (ht : idx.getD p 0 = dayEndOf day)
    (hv : vals.getD p none = some v)
    (hj : j < histTimes.length) (htj : histTimes.getD j 0 = dayEndOf day) :
    dayEndOf day = dayStartOf day + 24 ∧
    locIncl (dayStartOf day) (dayEndOf day) (dayEndOf day) = true ∧
    j ∈ dayCandJs histTimes day ∧
    v ∈ sliceVals idx vals (dayStartOf day) (dayEndOf day) := by
  have hloc : locIncl (dayStartOf day) (dayEndOf day) (dayEndOf day) = true := by
    unfold locIncl dayEndOf
    simp
  refine ⟨rfl, hloc, ?_, ?_⟩
  · unfold dayCandJs
    rw [List.mem_filter]
    exact ⟨List.mem_range.mpr hj, by rw [htj]; exact hloc⟩
  · unfold sliceVals selIncl
    rw [List.mem_filterMap]
    refine ⟨p, ?_, hv⟩
    rw [List.mem_filter]
    exact ⟨List.mem_range.mpr hp, by rw [ht]; exact hloc⟩

/-- C2, witness at day `0`: a row stamped `24` (midnight of day 1). -/
theorem C2_witness :
    (0 : ℕ) < ([24] : List ℤ).length ∧
    ([24] : List ℤ).getD 0 0 = dayEndOf 0 ∧
    ([some 7] : List (Option ℚ)).getD 0 none = some 7 ∧
    (0 : ℕ) < ([24] : List ℤ).length ∧
    ([24] : List ℤ).getD 0 0 = dayEndOf 0 ∧
    (dayEndOf 0 = dayStartOf 0 + 24 ∧
     locIncl (dayStartOf 0) (dayEndOf 0) (dayEndOf 0) = true ∧
     0 ∈ dayCandJs [24] 0 ∧
     (7 : ℚ) ∈ sliceVals [24] [some 7] (dayStartOf 0) (dayEndOf 0)) :=
  ⟨by decide, by decide, by decide, by decide, by decide,
    C2_day_end_inclusive 0 [24] [some 7] [24] 0 0 7 (by decide) (by decide)
      (by decide) (by decide) (by decide)⟩

/-- C8: the day analyzer is deterministic — it is a pure function of the
decomposition collaborator, the input table, the target day and the
parameters: two invocations on identical inputs return identical tables.  The
embedding is state-free, mirroring the code's lack of module-level mutable
state. -/
theorem C8_deterministic (decompose : List (ℤ × Option ℚ) → Except String (List ℚ))
    (idx idx2 : List ℤ) (cols cols2 : List (String × List (Option ℚ)))
    (day day2 : ℤ) (w w2 : ℕ) (hh hh2 : ℤ) (q1 q2 q3 sp q1b q2b q3b spb : ℚ)
    (h1 : idx = idx2) (h2 : cols = cols2) (h3 : day = day2) (h4 : w = w2)
    (h5 : hh = hh2) (h6 : q1 = q1b) (h7 : q2 = q2b) (h8 : q3 = q3b) (h9 : sp = spb) :
    analyzeDay decompose idx cols day w hh q1 q2 q3 sp =
      analyzeDay decompose idx2 cols2 day2 w2 hh2 q1b q2b q3b spb := by
  subst h1 h2 h3 h4 h5 h6 h7 h8 h9
  rfl

/-- C8, witness: two invocations on a small concrete input agree. -/
theorem C8_witness :
    analyzeDay idResid [0, 1] [("a", [some 1, some 2])] 0 2 720 (1/10) (1/2) (9/10) (19/20) =
      analyzeDay idResid [0, 1] [("a", [some 1, some 2])] 0 2 720 (1/10) (1/2) (9/10) (19/20) :=
  C8_deterministic idResid [0, 1] [0, 1] [("a", [some 1, some 2])] [("a", [some 1, some 2])]
    0 0 2 2 720 720 (1/10) (1/2) (9/10) (19/20) (1/10) (1/2) (9/10) (19/20)
    rfl rfl rfl rfl rfl rfl rfl rfl rfl

/-- C9: the rolling MAD (median of absolute deviations from the window
median, lines 50–53) is scale-equivariant: multiplying every value of the
series by a positive constant `k` multiplies the `mad` cell at every position
by exactly `k` (missing cells stay missing). -/
theorem C9_mad_scale_consistent (w : ℕ) (s : List ℚ) (i : ℕ) (k : ℚ) (hk : 0 < k) :
    f_mad w (s.map (fun x => k * x)) i = (f_mad w s i).map (fun m => k * m) := by
  unfold f_mad
  rw [isFull_map]
  by_cases h : isFull w s i = true
  · rw [if_pos h, if_pos h, win_map, madList_map_mul k hk]
    rfl
  · rw [if_neg h, if_neg h]
    rfl

/-- C9, witness at `w = 3`, `s = [1, 2, 4]`, `i = 2`, `k = 2`. -/
theorem C9_witness :
    (0 : ℚ) < 2 ∧
    f_mad 3 (([1, 2, 4] : List ℚ).map (fun x => 2 * x)) 2 =
      (f_mad 3 [1, 2, 4] 2).map (fun m => 2 * m) :=
  ⟨by norm_num, C9_mad_scale_consistent 3 [1, 2, 4] 2 2 (by norm_num)⟩

/-- C6: the code performs no configuration validation at the call boundary.
Called with day-summary quantiles `3/2, 5/2, 7/2` and spike percentile `5` —
all outside `[0, 1]` — on a two-row table whose day yields no complete feature
rows, `analyze_day` runs to completion and returns the empty table: no failure
describing the violated precondition is ever raised (pandas would validate the
quantiles only inside the non-empty day branch, after decomposition and
feature extraction). -/
theorem C6_no_fail_fast :
    ¬ ((3/2 : ℚ) ≤ 1) ∧ ¬ ((5 : ℚ) ≤ 1) ∧
    resTimes (analyzeDay idResid [0, 1] [("a", [some 1, some 2])] 0 2 720
      (3/2) (5/2) (7/2) 5) = some [] ∧
    resStatsPresent (analyzeDay idResid [0, 1] [("a", [some 1, some 2])] 0 2 720
      (3/2) (5/2) (7/2) 5) = some false := by
  refine ⟨by norm_num, by norm_num, ?_, ?_⟩
  · with_unfolding_all decide
  · with_unfolding_all decide
